import Mathlib

/-!
Verification of the remote build dispatch core of the hydra queue runner
(src/hydra-queue-runner/build-remote.cc), via a shallow embedding in Lean.

Store paths are modelled as natural numbers; timestamps as integers;
the typed wire stream as a list of tagged values.  Functions are
translated line by line from the C++ source; where an external
declaration (a header outside the repository) fixes a value, the
source of that value is noted in a comment.
-/

/-! ## Peer build statuses and internal step statuses

The numbering of the peer statuses follows nix's BuildResult::Status
enumeration; State::buildRemote asserts `BuildResult::TimedOut == 8`,
which pins the layout used here.  -/

/-- Peer build status (nix BuildResult::Status).  `otherStatus` stands for
any status integer outside the named range. -/
inductive BuildStatus where
  | Built
  | Substituted
  | AlreadyValid
  | PermanentFailure
  | InputRejected
  | OutputRejected
  | TransientFailure
  | CachedFailure
  | TimedOut
  | MiscFailure
  | DependencyFailed
  | LogLimitExceeded
  | NotDeterministic
  | otherStatus
  deriving DecidableEq, Repr

/-- Decode the status integer read off the wire, following nix's
BuildResult::Status numbering (`(BuildResult::Status) buildResult.status`). -/
def decodeStatus (n : Nat) : BuildStatus :=
  match n with
  | 0 => .Built
  | 1 => .Substituted
  | 2 => .AlreadyValid
  | 3 => .PermanentFailure
  | 4 => .InputRejected
  | 5 => .OutputRejected
  | 6 => .TransientFailure
  | 7 => .CachedFailure
  | 8 => .TimedOut
  | 9 => .MiscFailure
  | 10 => .DependencyFailed
  | 11 => .LogLimitExceeded
  | 12 => .NotDeterministic
  | _ => .otherStatus

/-- The assertion at the top of State::buildRemote:
`assert(BuildResult::TimedOut == 8)`. -/
theorem decodeStatus_timedOut : decodeStatus 8 = BuildStatus.TimedOut := rfl

/-- Internal step status (BuildStepStatus from state.hh); only the
constructors used by build-remote.cc are modelled. -/
inductive StepStatus where
  | bsSuccess
  | bsFailed
  | bsAborted
  | bsTimedOut
  | bsLogLimitExceeded
  | bsNotDeterministic
  | bsNarSizeLimitExceeded
  deriving DecidableEq, Repr

/-- nix::BuildResult, restricted to the fields build-remote.cc uses.
`builtOutputs` abstracts the DrvOutputs map as an association list. -/
structure BuildResult where
  status : BuildStatus
  errorMsg : String
  timesBuilt : Nat
  isNonDeterministic : Bool
  startTime : Nat
  stopTime : Nat
  builtOutputs : List (String × String)
  deriving DecidableEq, Repr

/-- RemoteResult (state.hh), restricted to the fields build-remote.cc uses. -/
structure RemoteResult where
  stepStatus : StepStatus
  errorMsg : String
  canRetry : Bool
  canCache : Bool
  isCached : Bool
  startTime : Nat
  stopTime : Nat
  timesBuilt : Nat
  isNonDeterministic : Bool
  logFile : String
  deriving DecidableEq, Repr

/-- Default-initialised RemoteResult, per the field initialisers in
state.hh (`stepStatus = bsAborted`, flags false, counters zero). -/
def RemoteResult.initial : RemoteResult :=
  { stepStatus := .bsAborted
    errorMsg := ""
    canRetry := false
    canCache := false
    isCached := false
    startTime := 0
    stopTime := 0
    timesBuilt := 0
    isNonDeterministic := false
    logFile := "" }

/-- RemoteResult::updateWithBuildResult (build-remote.cc lines 147-202):
copy the scalar fields from the peer result, then map the peer status to
the internal step status and retry/cache flags. -/
def RemoteResult.updateWithBuildResult (r : RemoteResult) (b : BuildResult) : RemoteResult :=
  let r1 := { r with
    startTime := b.startTime
    stopTime := b.stopTime
    timesBuilt := b.timesBuilt
    errorMsg := b.errorMsg
    isNonDeterministic := b.isNonDeterministic }
  match b.status with
  | .Built => { r1 with stepStatus := .bsSuccess }
  | .Substituted => { r1 with stepStatus := .bsSuccess, isCached := true }
  | .AlreadyValid => { r1 with stepStatus := .bsSuccess, isCached := true }
  | .PermanentFailure => { r1 with stepStatus := .bsFailed, canCache := true, errorMsg := "" }
  | .InputRejected => { r1 with stepStatus := .bsFailed, canCache := true }
  | .OutputRejected => { r1 with stepStatus := .bsFailed, canCache := true }
  | .TransientFailure => { r1 with stepStatus := .bsFailed, canRetry := true, errorMsg := "" }
  | .TimedOut => { r1 with stepStatus := .bsTimedOut, errorMsg := "" }
  | .MiscFailure => { r1 with stepStatus := .bsAborted, canRetry := true }
  | .LogLimitExceeded => { r1 with stepStatus := .bsLogLimitExceeded }
  | .NotDeterministic => { r1 with stepStatus := .bsNotDeterministic, canRetry := false, canCache := true }
  | .CachedFailure => { r1 with stepStatus := .bsAborted }
  | .DependencyFailed => { r1 with stepStatus := .bsAborted }
  | .otherStatus => { r1 with stepStatus := .bsAborted }

/-- C2: for every peer build status, updateWithBuildResult (applied to a
RemoteResult whose retry/cache flags are still at their default false
values) produces exactly the status/flag assignments of the spec's
status-mapping table: Built maps to Success; Substituted and AlreadyValid
to Success with isCached set; PermanentFailure to Failed with canCache
set, canRetry unset, errorMsg cleared; InputRejected and OutputRejected
to Failed with canCache set; TransientFailure to Failed with canRetry set
and errorMsg cleared; TimedOut to TimedOut with errorMsg cleared;
MiscFailure to Aborted with canRetry set; LogLimitExceeded to
LogLimitExceeded; NotDeterministic to NotDeterministic with canRetry
unset and canCache set; any other status to Aborted. -/
theorem updateWithBuildResult_status_table (r : RemoteResult) (b : BuildResult)
    (hr : r.canRetry = false) (hc : r.canCache = false) (hi : r.isCached = false) :
    (b.status = .Built →
      (r.updateWithBuildResult b).stepStatus = .bsSuccess) ∧
    ((b.status = .Substituted ∨ b.status = .AlreadyValid) →
      (r.updateWithBuildResult b).stepStatus = .bsSuccess ∧
      (r.updateWithBuildResult b).isCached = true) ∧
    (b.status = .PermanentFailure →
      (r.updateWithBuildResult b).stepStatus = .bsFailed ∧
      (r.updateWithBuildResult b).canCache = true ∧
      (r.updateWithBuildResult b).canRetry = false ∧
      (r.updateWithBuildResult b).errorMsg = "") ∧
    ((b.status = .InputRejected ∨ b.status = .OutputRejected) →
      (r.updateWithBuildResult b).stepStatus = .bsFailed ∧
      (r.updateWithBuildResult b).canCache = true) ∧
    (b.status = .TransientFailure →
      (r.updateWithBuildResult b).stepStatus = .bsFailed ∧
      (r.updateWithBuildResult b).canRetry = true ∧
      (r.updateWithBuildResult b).errorMsg = "") ∧
    (b.status = .TimedOut →
      (r.updateWithBuildResult b).stepStatus = .bsTimedOut ∧
      (r.updateWithBuildResult b).errorMsg = "") ∧
    (b.status = .MiscFailure →
      (r.updateWithBuildResult b).stepStatus = .bsAborted ∧
      (r.updateWithBuildResult b).canRetry = true) ∧
    (b.status = .LogLimitExceeded →
      (r.updateWithBuildResult b).stepStatus = .bsLogLimitExceeded) ∧
    (b.status = .NotDeterministic →
      (r.updateWithBuildResult b).stepStatus = .bsNotDeterministic ∧
      (r.updateWithBuildResult b).canRetry = false ∧
      (r.updateWithBuildResult b).canCache = true) ∧
    ((b.status = .CachedFailure ∨ b.status = .DependencyFailed ∨ b.status = .otherStatus) →
      (r.updateWithBuildResult b).stepStatus = .bsAborted) := by
  cases hb : b.status <;>
    simp [RemoteResult.updateWithBuildResult, hb, hr, hc, hi]

/-- Witness for C2: the permanent-failure row of the table evaluated on a
concrete input (status 3, error "builder failed with exit 1"). -/
theorem updateWithBuildResult_status_table_witness :
    (RemoteResult.initial.updateWithBuildResult
      { status := decodeStatus 3
        errorMsg := "builder failed with exit 1"
        timesBuilt := 1
        isNonDeterministic := false
        startTime := 100
        stopTime := 160
        builtOutputs := [] }).stepStatus = .bsFailed ∧
    (RemoteResult.initial.updateWithBuildResult
      { status := decodeStatus 3
        errorMsg := "builder failed with exit 1"
        timesBuilt := 1
        isNonDeterministic := false
        startTime := 100
        stopTime := 160
        builtOutputs := [] }).canCache = true ∧
    (RemoteResult.initial.updateWithBuildResult
      { status := decodeStatus 3
        errorMsg := "builder failed with exit 1"
        timesBuilt := 1
        isNonDeterministic := false
        startTime := 100
        stopTime := 160
        builtOutputs := [] }).canRetry = false ∧
    (RemoteResult.initial.updateWithBuildResult
      { status := decodeStatus 3
        errorMsg := "builder failed with exit 1"
        timesBuilt := 1
        isNonDeterministic := false
        startTime := 100
        stopTime := 160
        builtOutputs := [] }).errorMsg = "" :=
  (updateWithBuildResult_status_table RemoteResult.initial
    { status := decodeStatus 3
      errorMsg := "builder failed with exit 1"
      timesBuilt := 1
      isNonDeterministic := false
      startTime := 100
      stopTime := 160
      builtOutputs := [] } rfl rfl rfl).2.2.1 rfl

/-! ## The build driver (performBuild)

The wire is modelled as a list of tagged values; each read primitive
consumes one element (a failed read, e.g. on the wrong tag or an empty
stream, is `none`).  The client half of the exchange is a pure list of
sent items.  `GET_PROTOCOL_MINOR(conn->remoteVersion)` is the parameter
`v` below. -/

/-- A value on the typed wire stream. -/
inductive WireVal where
  | vint (n : Nat)
  | vstr (s : String)
  | vouts (os : List (String × String))
  deriving DecidableEq, Repr

/-- readInt on the modelled stream. -/
def readIntW : List WireVal → Option (Nat × List WireVal)
  | .vint n :: rest => some (n, rest)
  | _ => none

/-- readString on the modelled stream. -/
def readStringW : List WireVal → Option (String × List WireVal)
  | .vstr s :: rest => some (s, rest)
  | _ => none

/-- worker_proto::read of a DrvOutputs map on the modelled stream. -/
def readOutsW : List WireVal → Option (List (String × String) × List WireVal)
  | .vouts os :: rest => some (os, rest)
  | _ => none

/-- A successful readInt consumes exactly one stream element. -/
theorem readIntW_length {input : List WireVal} {p : Nat × List WireVal}
    (h : readIntW input = some p) : input.length = p.2.length + 1 := by
  cases input with
  | nil => simp [readIntW] at h
  | cons a t =>
    cases a with
    | vint n =>
      injection h with h
      subst h
      simp
    | vstr s => simp [readIntW] at h
    | vouts os => simp [readIntW] at h

/-- A successful readString consumes exactly one stream element. -/
theorem readStringW_length {input : List WireVal} {p : String × List WireVal}
    (h : readStringW input = some p) : input.length = p.2.length + 1 := by
  cases input with
  | nil => simp [readStringW] at h
  | cons a t =>
    cases a with
    | vint n => simp [readStringW] at h
    | vstr s =>
      injection h with h
      subst h
      simp
    | vouts os => simp [readStringW] at h

/-- A successful readOuts consumes exactly one stream element. -/
theorem readOutsW_length {input : List WireVal}
    {p : List (String × String) × List WireVal}
    (h : readOutsW input = some p) : input.length = p.2.length + 1 := by
  cases input with
  | nil => simp [readOutsW] at h
  | cons a t =>
    cases a with
    | vint n => simp [readOutsW] at h
    | vstr s => simp [readOutsW] at h
    | vouts os =>
      injection h with h
      subst h
      simp

/-- State::BuildOptions (state.hh), restricted to the fields
performBuild sends. -/
structure BuildOptions where
  maxSilentTime : Nat
  buildTimeout : Nat
  maxLogSize : Nat
  repeats : Nat
  enforceDeterminism : Bool
  deriving DecidableEq, Repr

/-- One item written to the peer by performBuild. -/
inductive SentItem where
  | cmdBuildDerivation
  | sDrvPath
  | sDerivation
  | sMaxSilentTime (n : Nat)
  | sBuildTimeout (n : Nat)
  | sMaxLogSize (n : Nat)
  | sRepeats (n : Nat)
  | sEnforceDeterminism (b : Bool)
  | sKeepFailed (b : Bool)
  deriving DecidableEq, Repr

/-- The client half of performBuild (build-remote.cc lines 218-230):
command, drvPath, derivation, maxSilentTime, buildTimeout, then the
version-gated optional fields (maxLogSize at minor 2, repeats and
enforceDeterminism at minor 3, keepFailed = false at minor 7). -/
def performBuildSends (v : Nat) (opts : BuildOptions) : List SentItem :=
  [.cmdBuildDerivation, .sDrvPath, .sDerivation,
   .sMaxSilentTime opts.maxSilentTime, .sBuildTimeout opts.buildTimeout] ++
  (if 2 ≤ v then [.sMaxLogSize opts.maxLogSize] else []) ++
  (if 3 ≤ v then [.sRepeats opts.repeats, .sEnforceDeterminism opts.enforceDeterminism] else []) ++
  (if 7 ≤ v then [.sKeepFailed false] else [])

/-- The server half of performBuild (build-remote.cc lines 232-258):
read the status and error message, then the fields gated on minor 3
(timesBuilt, isNonDeterministic, startTime, stopTime, with the
`if (start && start)` override exactly as in the source) and on minor 6
(builtOutputs).  `callerStart`/`callerStop` are the wall-clock times the
caller measures around the status read. -/
def performBuildReads (v : Nat) (callerStart callerStop : Nat)
    (input : List WireVal) : Option (BuildResult × List WireVal) :=
  (readIntW input).bind fun p1 =>
  (readStringW p1.2).bind fun p2 =>
    let r0 : BuildResult :=
      { status := decodeStatus p1.1
        errorMsg := p2.1
        timesBuilt := 0
        isNonDeterministic := false
        startTime := callerStart
        stopTime := callerStop
        builtOutputs := [] }
    if 3 ≤ v then
      (readIntW p2.2).bind fun q1 =>
      (readIntW q1.2).bind fun q2 =>
      (readIntW q2.2).bind fun q3 =>
      (readIntW q3.2).bind fun q4 =>
        let r1 := { r0 with timesBuilt := q1.1, isNonDeterministic := q2.1 ≠ 0 }
        let r2 := if q3.1 ≠ 0 then { r1 with startTime := q3.1, stopTime := q4.1 } else r1
        if 6 ≤ v then
          (readOutsW q4.2).bind fun q5 => some ({ r2 with builtOutputs := q5.1 }, q5.2)
        else some (r2, q4.2)
    else
      if 6 ≤ v then
        (readOutsW p2.2).bind fun q5 => some ({ r0 with builtOutputs := q5.1 }, q5.2)
      else some (r0, p2.2)

/-- performBuild: the pair of the client half and the server half. -/
def performBuild (v : Nat) (opts : BuildOptions) (callerStart callerStop : Nat)
    (input : List WireVal) : List SentItem × Option (BuildResult × List WireVal) :=
  (performBuildSends v opts, performBuildReads v callerStart callerStop input)

/-- A successful performBuildReads consumes exactly the version-gated
number of stream elements: status and error message always, four more
iff minor ≥ 3, one more iff minor ≥ 6. -/
theorem performBuildReads_length (v : Nat) (cs ct : Nat)
    (input : List WireVal) (r : BuildResult) (rest : List WireVal)
    (h : performBuildReads v cs ct input = some (r, rest)) :
    input.length =
      (2 + (if 3 ≤ v then 4 else 0) + (if 6 ≤ v then 1 else 0)) + rest.length := by
  simp only [performBuildReads, Option.bind_eq_some] at h
  obtain ⟨p1, h1, p2, h2, h⟩ := h
  have l1 := readIntW_length h1
  have l2 := readStringW_length h2
  by_cases h3 : 3 ≤ v
  · rw [if_pos h3] at h
    simp only [Option.bind_eq_some] at h
    obtain ⟨q1, hq1, q2, hq2, q3, hq3, q4, hq4, h⟩ := h
    have m1 := readIntW_length hq1
    have m2 := readIntW_length hq2
    have m3 := readIntW_length hq3
    have m4 := readIntW_length hq4
    by_cases h6 : 6 ≤ v
    · rw [if_pos h6] at h
      simp only [Option.bind_eq_some] at h
      obtain ⟨q5, hq5, h⟩ := h
      have m5 := readOutsW_length hq5
      have hrest : rest = q5.2 := (congrArg Prod.snd (Option.some.inj h)).symm
      rw [if_pos h3, if_pos h6, hrest]
      omega
    · rw [if_neg h6] at h
      have hrest : rest = q4.2 := (congrArg Prod.snd (Option.some.inj h)).symm
      rw [if_pos h3, if_neg h6, hrest]
      omega
  · rw [if_neg h3] at h
    by_cases h6 : 6 ≤ v
    · rw [if_pos h6] at h
      simp only [Option.bind_eq_some] at h
      obtain ⟨q5, hq5, h⟩ := h
      have m5 := readOutsW_length hq5
      have hrest : rest = q5.2 := (congrArg Prod.snd (Option.some.inj h)).symm
      rw [if_neg h3, if_pos h6, hrest]
      omega
    · rw [if_neg h6] at h
      have hrest : rest = p2.2 := (congrArg Prod.snd (Option.some.inj h)).symm
      rw [if_neg h3, if_neg h6, hrest]
      omega

/-- C4: performBuild sends and reads exactly the version-gated optional
fields of the protocol table: maxLogSize is sent iff minor ≥ 2; repeats
and enforceDeterminism are sent iff minor ≥ 3; keepFailed = false is
sent iff minor ≥ 7; the number of server fields read is 2 (status,
errorMsg) plus 4 (timesBuilt, isNonDeterministic, startTime, stopTime)
iff minor ≥ 3 plus 1 (builtOutputs) iff minor ≥ 6 — so no field gated
behind a higher minor than observed is ever read.  With minor 1 the
sent list is exactly the unconditional prefix, exactly two server
fields are read, and all gated result fields keep their defaults. -/
theorem performBuild_version_gating (v : Nat) (opts : BuildOptions) :
    (SentItem.sMaxLogSize opts.maxLogSize ∈ (performBuild v opts 0 0 []).1 ↔ 2 ≤ v) ∧
    (SentItem.sRepeats opts.repeats ∈ (performBuild v opts 0 0 []).1 ↔ 3 ≤ v) ∧
    (SentItem.sEnforceDeterminism opts.enforceDeterminism ∈ (performBuild v opts 0 0 []).1 ↔ 3 ≤ v) ∧
    (SentItem.sKeepFailed false ∈ (performBuild v opts 0 0 []).1 ↔ 7 ≤ v) ∧
    (∀ cs ct input r rest, (performBuild v opts cs ct input).2 = some (r, rest) →
      input.length =
        (2 + (if 3 ≤ v then 4 else 0) + (if 6 ≤ v then 1 else 0)) + rest.length) ∧
    (performBuildSends 1 opts =
      [.cmdBuildDerivation, .sDrvPath, .sDerivation,
       .sMaxSilentTime opts.maxSilentTime, .sBuildTimeout opts.buildTimeout]) ∧
    (∀ cs ct input r rest, performBuildReads 1 cs ct input = some (r, rest) →
      input.length = 2 + rest.length ∧ r.timesBuilt = 0 ∧
      r.isNonDeterministic = false ∧ r.startTime = cs ∧ r.stopTime = ct ∧
      r.builtOutputs = []) := by
  refine ⟨?_, ?_, ?_, ?_, ?_, ?_, ?_⟩
  · constructor
    · intro h
      by_contra hv
      simp [performBuild, performBuildSends, hv,
        show ¬ 3 ≤ v by omega, show ¬ 7 ≤ v by omega] at h
    · intro h
      simp [performBuild, performBuildSends, h]
  · constructor
    · intro h
      by_contra hv
      by_cases h2 : 2 ≤ v <;>
        simp [performBuild, performBuildSends, hv, h2, show ¬ 7 ≤ v by omega] at h
    · intro h
      simp [performBuild, performBuildSends, h]
  · constructor
    · intro h
      by_contra hv
      by_cases h2 : 2 ≤ v <;>
        simp [performBuild, performBuildSends, hv, h2, show ¬ 7 ≤ v by omega] at h
    · intro h
      simp [performBuild, performBuildSends, h]
  · constructor
    · intro h
      by_contra hv
      by_cases h2 : 2 ≤ v <;> by_cases h3 : 3 ≤ v <;>
        simp [performBuild, performBuildSends, hv, h2, h3] at h
    · intro h
      simp [performBuild, performBuildSends, h]
  · intro cs ct input r rest h
    exact performBuildReads_length v cs ct input r rest h
  · simp [performBuildSends]
  · intro cs ct input r rest h
    have hl := performBuildReads_length 1 cs ct input r rest h
    simp at hl
    refine ⟨hl, ?_⟩
    simp only [performBuildReads, Option.bind_eq_some] at h
    obtain ⟨p1, h1, p2, h2, h⟩ := h
    rw [if_neg (by omega : ¬ 3 ≤ (1 : Nat)), if_neg (by omega : ¬ 6 ≤ (1 : Nat))] at h
    have heq := (Option.some.inj h)
    rw [Prod.ext_iff] at heq
    obtain ⟨hfst, -⟩ := heq
    simp only [] at hfst
    rw [← hfst]
    exact ⟨rfl, rfl, rfl, rfl, rfl⟩

/-- Witness for C4: at minor 3 with a six-element response stream the
consumed count is 2 + 4 + 0. -/
theorem performBuild_version_gating_witness :
    ([WireVal.vint 0, WireVal.vstr "", WireVal.vint 1, WireVal.vint 0,
      WireVal.vint 100, WireVal.vint 160] : List WireVal).length =
      (2 + (if 3 ≤ 3 then 4 else 0) + (if 6 ≤ 3 then 1 else 0)) +
        ([] : List WireVal).length :=
  (performBuild_version_gating 3
      { maxSilentTime := 60, buildTimeout := 3600, maxLogSize := 1000,
        repeats := 0, enforceDeterminism := false }).2.2.2.2.1
    100 200
    [WireVal.vint 0, WireVal.vstr "", WireVal.vint 1, WireVal.vint 0,
     WireVal.vint 100, WireVal.vint 160]
    { status := .Built, errorMsg := "", timesBuilt := 1,
      isNonDeterministic := false, startTime := 100, stopTime := 160,
      builtOutputs := [] }
    [] (by rfl)

/-- C7 (code bug): the source guards the start/stop override with
`if (start && start)` — start tested twice — so whenever the reported
startTime is non-zero the override is applied even though the reported
stopTime is zero, in which case the claim requires the caller-measured
times to be kept.  Concretely, at minor 3 with server response
status = 0 (Built), errorMsg = "", timesBuilt = 1,
isNonDeterministic = 0, startTime = 5, stopTime = 0, and caller-measured
times 100/200, the result carries startTime = 5 and stopTime = 0 instead
of the caller-measured 100/200. -/
theorem performBuild_startStop_override_bug :
    (performBuildReads 3 100 200
      [WireVal.vint 0, WireVal.vstr "", WireVal.vint 1, WireVal.vint 0,
       WireVal.vint 5, WireVal.vint 0]).map
      (fun p => (p.1.startTime, p.1.stopTime)) = some (5, 0) ∧ (5, 0) ≠ (100, 200) := by
  constructor
  · rfl
  · decide

/-! ## Machine health (ConnectInfo)

The exception handler of State::buildRemote (lines 493-509) and the
reset on session open (lines 405-408).  Wall-clock time points are
modelled as integers (seconds); the comparison
`info->lastFailure < now - std::chrono::seconds(30)` becomes an integer
comparison.  `retryInterval` and `retryBackoff` are configuration values
from state.hh, modelled as natural numbers; the jitter term is
`rand() % 30`, so the handler takes the raw random value and reduces it
modulo 30 itself. -/

/-- Machine::ConnectInfo (state.hh): the fields mutated by the core. -/
structure ConnectInfo where
  consecutiveFailures : Nat
  lastFailure : Int
  disabledUntil : Int
  deriving DecidableEq, Repr

/-- The failure handler (build-remote.cc lines 499-507): the failure
counts iff `consecutiveFailures == 0 || lastFailure < now - 30s`; when
it counts, consecutiveFailures is bumped (capped at 4), lastFailure set
to now, and disabledUntil set to
`now + retryInterval * retryBackoff ^ (consecutiveFailures - 1) + rand % 30`. -/
def handleFailure (retryInterval retryBackoff : Nat) (info : ConnectInfo)
    (now : Int) (rnd : Nat) : ConnectInfo :=
  if info.consecutiveFailures = 0 ∨ info.lastFailure < now - 30 then
    let cf := min (info.consecutiveFailures + 1) 4
    let delta : Nat := retryInterval * retryBackoff ^ (cf - 1) + rnd % 30
    { consecutiveFailures := cf
      lastFailure := now
      disabledUntil := now + (delta : Int) }
  else info

/-- The reset performed once a session is opened (build-remote.cc lines
405-408): `info->consecutiveFailures = 0`. -/
def resetConnectInfo (info : ConnectInfo) : ConnectInfo :=
  { info with consecutiveFailures := 0 }

/-- A sequence of failures folded through the handler. -/
def runFailures (retryInterval retryBackoff : Nat) :
    ConnectInfo → List (Int × Nat) → ConnectInfo
  | info, [] => info
  | info, (now, rnd) :: rest =>
      runFailures retryInterval retryBackoff
        (handleFailure retryInterval retryBackoff info now rnd) rest

/-- Every failure in the sequence counts (is not absorbed). -/
def allCount (retryInterval retryBackoff : Nat) :
    ConnectInfo → List (Int × Nat) → Bool
  | _, [] => true
  | info, (now, rnd) :: rest =>
      (decide (info.consecutiveFailures = 0 ∨ info.lastFailure < now - 30)) &&
      allCount retryInterval retryBackoff
        (handleFailure retryInterval retryBackoff info now rnd) rest

/-- Counted failures saturate consecutiveFailures at min k 4, and the
last counted failure fixes disabledUntil from its own time and jitter. -/
theorem runFailures_spec (ri rb : Nat) :
    ∀ (evs : List (Int × Nat)) (info : ConnectInfo) (m : Nat),
    info.consecutiveFailures = min m 4 →
    allCount ri rb info evs = true →
    (runFailures ri rb info evs).consecutiveFailures = min (m + evs.length) 4 ∧
    (∀ nowK rndK, evs.getLastD (nowK, rndK) = (nowK, rndK) → evs ≠ [] →
      (runFailures ri rb info evs).disabledUntil =
        nowK + ((ri * rb ^ (min (m + evs.length) 4 - 1) + rndK % 30 : Nat) : Int)) := by
  intro evs
  induction evs with
  | nil =>
    intro info m hm hc
    refine ⟨by simpa [runFailures] using hm, ?_⟩
    intro nowK rndK hlast hne
    exact absurd rfl hne
  | cons e rest ih =>
    intro info m hm hc
    obtain ⟨now, rnd⟩ := e
    simp only [allCount, Bool.and_eq_true, decide_eq_true_eq] at hc
    obtain ⟨hcnt, hc⟩ := hc
    have hstep : (handleFailure ri rb info now rnd).consecutiveFailures = min (m + 1) 4 := by
      rw [handleFailure, if_pos hcnt]
      simp only
      omega
    have := ih (handleFailure ri rb info now rnd) (m + 1) hstep hc
    obtain ⟨hcf, hdu⟩ := this
    constructor
    · simpa [runFailures, Nat.add_comm, Nat.add_assoc, Nat.add_left_comm] using hcf
    · intro nowK rndK hlast hne
      cases hrest : rest with
      | nil =>
        subst hrest
        simp only [List.getLastD] at hlast
        obtain ⟨h1, h2⟩ := Prod.mk.injEq _ _ _ _ ▸ hlast
        simp only [runFailures]
        rw [handleFailure, if_pos hcnt]
        simp only [List.length_cons, List.length_nil]
        rw [← h1, ← h2]
        have : min (info.consecutiveFailures + 1) 4 = min (m + 1) 4 := by omega
        rw [this]
      | cons e2 rest2 =>
        subst hrest
        have hlast2 : (e2 :: rest2).getLastD (nowK, rndK) = (nowK, rndK) := by
          simpa [List.getLastD] using hlast
        have := hdu nowK rndK hlast2 (by simp)
        simp only [runFailures] at this ⊢
        simp only [List.length_cons] at this ⊢
        have hxy : m + 1 + (rest2.length + 1) = m + (rest2.length + 1 + 1) := by omega
        rw [hxy] at this
        exact this

/-- C5: a handled failure counts iff consecutiveFailures = 0 or
lastFailure < now − 30 s; when it counts, consecutiveFailures becomes
min(consecutiveFailures + 1, 4), lastFailure becomes now, and
disabledUntil becomes now + retryInterval·retryBackoff^(cf' − 1) + j
for the jitter j = rnd % 30 ∈ [0, 30); consequently after k counted
consecutive failures starting from a zeroed counter, disabledUntil
minus the time of the k-th failure lies in
[retryInterval·retryBackoff^(min(k,4)−1),
 retryInterval·retryBackoff^(min(k,4)−1) + 30). -/
theorem machineHealth_backoff (ri rb : Nat) (info : ConnectInfo) (now : Int)
    (rnd : Nat) (evs : List (Int × Nat)) (i0 : ConnectInfo)
    (h0 : i0.consecutiveFailures = 0)
    (hne : evs ≠ [])
    (hcnt : allCount ri rb i0 evs = true) :
    ((info.consecutiveFailures = 0 ∨ info.lastFailure < now - 30) →
      handleFailure ri rb info now rnd =
        { consecutiveFailures := min (info.consecutiveFailures + 1) 4
          lastFailure := now
          disabledUntil := now +
            ((ri * rb ^ (min (info.consecutiveFailures + 1) 4 - 1) + rnd % 30 : Nat) : Int) }) ∧
    (¬ (info.consecutiveFailures = 0 ∨ info.lastFailure < now - 30) →
      handleFailure ri rb info now rnd = info) ∧
    ((runFailures ri rb i0 evs).consecutiveFailures = min evs.length 4) ∧
    (∀ nowK rndK, evs.getLastD (nowK, rndK) = (nowK, rndK) →
      ∃ j : Nat, j < 30 ∧
        (runFailures ri rb i0 evs).disabledUntil =
          nowK + ((ri * rb ^ (min evs.length 4 - 1) : Nat) : Int) + (j : Int)) := by
  have hspec := runFailures_spec ri rb evs i0 0 (by simpa using h0) hcnt
  refine ⟨?_, ?_, ?_, ?_⟩
  · intro hc
    rw [handleFailure, if_pos hc]
  · intro hc
    rw [handleFailure, if_neg hc]
  · simpa using hspec.1
  · intro nowK rndK hlast
    refine ⟨rndK % 30, Nat.mod_lt _ (by norm_num), ?_⟩
    have hdu := hspec.2 nowK rndK hlast hne
    rw [hdu]
    simp only [Nat.zero_add]
    push_cast
    ring

/-- Witness for C5: two counted failures (times 0 and 100, raw jitters 5
and 40) starting from a zeroed counter; the bump rule, the counter after
the run, and the backoff window are all evaluated concretely. -/
theorem machineHealth_backoff_witness :
    handleFailure 10 3 ⟨0, 0, 0⟩ 0 5 =
      { consecutiveFailures := min (0 + 1) 4
        lastFailure := 0
        disabledUntil := 0 + ((10 * 3 ^ (min (0 + 1) 4 - 1) + 5 % 30 : Nat) : Int) } ∧
    (runFailures 10 3 ⟨0, 0, 0⟩ [(0, 5), (100, 40)]).consecutiveFailures =
      min ([(0, 5), ((100 : Int), 40)] : List (Int × Nat)).length 4 ∧
    (∃ j : Nat, j < 30 ∧
      (runFailures 10 3 ⟨0, 0, 0⟩ [(0, 5), (100, 40)]).disabledUntil =
        100 + ((10 * 3 ^ (min ([(0, 5), ((100 : Int), 40)] : List (Int × Nat)).length 4 - 1) : Nat) : Int) + (j : Int)) := by
  have h := machineHealth_backoff 10 3 ⟨0, 0, 0⟩ 0 5 [(0, 5), (100, 40)] ⟨0, 0, 0⟩
    rfl (by simp) (by decide)
  exact ⟨h.1 (Or.inl rfl), h.2.2.1, h.2.2.2 100 40 (by decide)⟩

/-- The health invariant of the spec: consecutiveFailures never exceeds
4 and disabledUntil is at least lastFailure. -/
def ConnectInfo.healthInv (info : ConnectInfo) : Prop :=
  info.consecutiveFailures ≤ 4 ∧ info.lastFailure ≤ info.disabledUntil

instance (info : ConnectInfo) : Decidable info.healthInv := by
  unfold ConnectInfo.healthInv
  infer_instance

/-- C6: both operations of the core on a machine's ConnectInfo — the
failure handler and the reset performed when a session is opened —
preserve the invariant that consecutiveFailures stays in 0..4 and
disabledUntil ≥ lastFailure. -/
theorem connectInfo_invariant_preserved (ri rb : Nat) (info : ConnectInfo)
    (now : Int) (rnd : Nat) (h : info.healthInv) :
    (handleFailure ri rb info now rnd).healthInv ∧
    (resetConnectInfo info).healthInv := by
  obtain ⟨h1, h2⟩ := h
  constructor
  · rw [handleFailure]
    by_cases hc : info.consecutiveFailures = 0 ∨ info.lastFailure < now - 30
    · rw [if_pos hc]
      simp only [ConnectInfo.healthInv]
      refine ⟨by omega, by omega⟩
    · rw [if_neg hc]
      exact ⟨h1, h2⟩
  · exact ⟨by simp [resetConnectInfo], by simpa [ConnectInfo.healthInv, resetConnectInfo] using h2⟩

/-- Witness for C6: the invariant is preserved through a concrete
counted failure and a concrete reset. -/
theorem connectInfo_invariant_preserved_witness :
    (handleFailure 10 3 ⟨1, 50, 60⟩ 100 7).healthInv ∧
    (resetConnectInfo ⟨1, 50, 60⟩).healthInv :=
  connectInfo_invariant_preserved 10 3 ⟨1, 50, 60⟩ 100 7 (by decide)

/-- C10: an absorbed failure (consecutiveFailures > 0 and lastFailure
within the last 30 seconds) leaves the ConnectInfo record entirely
unchanged — consecutiveFailures, lastFailure and disabledUntil are all
unmodified, so an absorbed failure does not extend the disabled
period. -/
theorem absorbed_failure_frame (ri rb : Nat) (info : ConnectInfo)
    (now : Int) (rnd : Nat)
    (h1 : 0 < info.consecutiveFailures) (h2 : now - 30 ≤ info.lastFailure) :
    handleFailure ri rb info now rnd = info := by
  rw [handleFailure, if_neg]
  intro hc
  rcases hc with hc | hc <;> omega

/-- Witness for C10: a second failure 10 seconds after the first is
absorbed without touching the record. -/
theorem absorbed_failure_frame_witness :
    handleFailure 10 3 ⟨2, 100, 130⟩ 110 7 = ⟨2, 100, 130⟩ :=
  absorbed_failure_frame 10 3 ⟨2, 100, 130⟩ 110 7 (by decide) (by decide)

/-! ## Input transfer (sendInputs)

Only the copy operations matter for the claims; they are modelled as a
list of (source store, target store) pairs.  The three stores in play
are the queue runner's local store, the destination store, and the
remote machine's store reached through the session. -/

/-- The stores involved in a copy operation. -/
inductive StoreId where
  | localStoreId
  | destStoreId
  | remoteStoreId
  deriving DecidableEq, Repr

/-- One closure copy between two stores. -/
structure CopyOp where
  src : StoreId
  dst : StoreId
  deriving DecidableEq, Repr

/-- The input-closure copy of sendInputs (build-remote.cc lines
128-137): for a localhost worker the closure is computed in the
destination store and copied from the destination store into the local
store; otherwise copyClosure streams it from the destination store to
the remote store through the session. -/
def sendInputsMainCopy (isLocalhost : Bool) : CopyOp :=
  if isLocalhost then ⟨.destStoreId, .localStoreId⟩
  else ⟨.destStoreId, .remoteStoreId⟩

/-- sendInputs (build-remote.cc lines 87-145), reduced to its copy
operations: first, when the local and destination store URIs differ,
the input closure is copied from the local store into the destination
store (lines 114-118); then the main input-closure copy per
sendInputsMainCopy. -/
def sendInputs (urisDiffer isLocalhost : Bool) : List CopyOp :=
  (if urisDiffer then [⟨.localStoreId, .destStoreId⟩] else []) ++
  [sendInputsMainCopy isLocalhost]

/-- Counterexample to C9: on a localhost worker the input-closure copy
does not target the destination store — `copyPaths(destStore,
localStore, closure, ...)` copies from the destination store into the
local store, whereas the claim says the closure is copied into the
destination store. -/
theorem sendInputs_localhost_counterexample :
    ¬ (sendInputsMainCopy true).dst = StoreId.destStoreId := by decide

/-- C9 (amended): during input transfer, when the worker machine is the
local host the input closure is copied from the destination store into
the local store (the localhost builder reads the local store directly),
and when it is not the local host the inputs are copied from the
destination store to the remote store through the session. -/
theorem sendInputs_copy_directions :
    sendInputsMainCopy true = ⟨.destStoreId, .localStoreId⟩ ∧
    sendInputsMainCopy false = ⟨.destStoreId, .remoteStoreId⟩ ∧
    (∀ u : Bool, (sendInputs u true).getLast (by cases u <;> simp [sendInputs]) =
      ⟨.destStoreId, .localStoreId⟩) ∧
    (∀ u : Bool, (sendInputs u false).getLast (by cases u <;> simp [sendInputs]) =
      ⟨.destStoreId, .remoteStoreId⟩) := by
  refine ⟨rfl, rfl, ?_, ?_⟩ <;> intro u <;> cases u <;> rfl

/-! ## Reverse topological sort (closure transfer)

Store paths are natural numbers; the `std::map<StorePath,
ValidPathInfo>` argument is an association list (iterated in list
order, matching the map's ascending iteration when the list is sorted
by key).  The C++ recursion is unbounded; here `dfsVisit` carries fuel,
and the callers pass `m.length + 1`, which the lemmas below show can
never be exhausted, since every level of real recursion consumes an
unvisited key. -/

/-- nix ValidPathInfo, restricted to the fields build-remote.cc uses. -/
structure ValidPathInfo where
  references : List Nat
  narSize : Nat
  deriving DecidableEq, Repr

/-- The metadata map passed to reverseTopoSortPaths. -/
abbrev PathMap := List (Nat × ValidPathInfo)

/-- The key set of the map (`paths.count(i)` tests membership here). -/
def keysOf (m : PathMap) : List Nat := m.map Prod.fst

/-- `paths.find(path)`: the references of the first entry for `path`,
or the empty set when the path is absent from the map. -/
def refsOf : PathMap → Nat → List Nat
  | [], _ => []
  | (k, info) :: t, p => if k = p then info.references else refsOf t p

/-- The state threaded through dfsVisit: the visited set and the
post-order output list. -/
structure DfsState where
  visited : List Nat
  sorted : List Nat
  deriving DecidableEq, Repr

/-- `sorted.push_back(path)` at the end of dfsVisit. -/
def dfsFinish (p : Nat) (st : DfsState) : DfsState :=
  ⟨st.visited, st.sorted ++ [p]⟩

/-- dfsVisit (build-remote.cc lines 53-66): mark the path visited (or
return if it already was), recurse into each reference that is a
different path present in the map, then append the path to the
output. -/
def dfsVisit (m : PathMap) : Nat → Nat → DfsState → DfsState
  | 0, _, st => st
  | fuel + 1, p, st =>
    if p ∈ st.visited then st
    else
      dfsFinish p
        ((refsOf m p).foldl
          (fun acc r => if r ≠ p ∧ r ∈ keysOf m then dfsVisit m fuel r acc else acc)
          ⟨p :: st.visited, st.sorted⟩)

/-- The top-level loop of reverseTopoSortPaths: dfsVisit from every key
of the map in order. -/
def dfsRoots (m : PathMap) : List Nat → DfsState → DfsState
  | [], st => st
  | p :: ps, st => dfsRoots m ps (dfsVisit m (m.length + 1) p st)

/-- reverseTopoSortPaths (build-remote.cc lines 46-72). -/
def reverseTopoSortPaths (m : PathMap) : List Nat :=
  (dfsRoots m (keysOf m) ⟨[], []⟩).sorted

/-- The ordering property, processed left to right: every element's
references that are present in the map (self-references excepted)
already occur among the elements seen so far. -/
def ClosedFrom (m : PathMap) : List Nat → List Nat → Prop
  | _, [] => True
  | seen, p :: rest =>
      (∀ r ∈ refsOf m p, r ∈ keysOf m → r ≠ p → r ∈ seen) ∧
      ClosedFrom m (seen ++ [p]) rest

instance instDecClosedFrom (m : PathMap) :
    (seen l : List Nat) → Decidable (ClosedFrom m seen l)
  | _, [] => .isTrue trivial
  | seen, p :: rest =>
      haveI : Decidable (ClosedFrom m (seen ++ [p]) rest) :=
        instDecClosedFrom m (seen ++ [p]) rest
      inferInstanceAs (Decidable (_ ∧ _))

/-- Every reference of every list element that is present in the map
(other than a self-reference) appears strictly before that element. -/
def refsClosed (m : PathMap) (l : List Nat) : Prop := ClosedFrom m [] l

instance (m : PathMap) (l : List Nat) : Decidable (refsClosed m l) :=
  instDecClosedFrom m [] l

/-- The traversal edges of dfsVisit: from a present path to a distinct
present reference. -/
def Edge (m : PathMap) (a b : Nat) : Prop :=
  a ∈ keysOf m ∧ b ∈ keysOf m ∧ b ∈ refsOf m a ∧ b ≠ a

/-- A rank function witnessing that the reference relation among
distinct present paths is acyclic. -/
def Ranked (m : PathMap) (rank : Nat → Nat) : Prop :=
  ∀ a b, Edge m a b → rank b < rank a

/-- Reachability along traversal edges. -/
def Reaches (m : PathMap) : Nat → Nat → Prop :=
  Relation.ReflTransGen (fun a b => Edge m a b)

/-- Counterexample to C1: the claim quantifies over every input map,
but on a map whose (distinct-path) references form a cycle the
post-order violates the ordering property: with 1 referencing 2 and 2
referencing 1, the output is [2, 1], in which the reference 1 of path 2
appears after 2, not strictly before it. -/
theorem reverseTopoSortPaths_cyclic_counterexample :
    reverseTopoSortPaths [(1, ⟨[2], 0⟩), (2, ⟨[1], 0⟩)] = [2, 1] ∧
    ¬ refsClosed [(1, ⟨[2], 0⟩), (2, ⟨[1], 0⟩)]
      (reverseTopoSortPaths [(1, ⟨[2], 0⟩), (2, ⟨[1], 0⟩)]) := by
  decide

/-- The number of keys of the map not yet visited: an upper bound on
the remaining real recursion depth of dfsVisit. -/
def unvisitedCount (m : PathMap) (v : List Nat) : Nat :=
  ((keysOf m).filter (fun k => decide (k ∉ v))).length

/-- Growing the visited set cannot increase the unvisited count. -/
theorem unvisitedCount_mono (m : PathMap) {v w : List Nat}
    (h : ∀ x ∈ v, x ∈ w) : unvisitedCount m w ≤ unvisitedCount m v := by
  unfold unvisitedCount
  refine List.Sublist.length_le (List.monotone_filter_right _ ?_)
  intro a ha
  simp only [decide_eq_true_eq] at ha ⊢
  intro hav
  exact ha (h a hav)

/-- Filtering out one more present, previously-kept element strictly
shrinks the filtered length. -/
theorem filter_cons_notMem_lt (v : List Nat) (p : Nat) :
    ∀ l : List Nat, p ∈ l → p ∉ v →
    (l.filter (fun k => decide (k ∉ p :: v))).length <
      (l.filter (fun k => decide (k ∉ v))).length := by
  intro l
  induction l with
  | nil => intro hp _; simp at hp
  | cons a t ih =>
    intro hp hv
    simp only [List.filter_cons]
    rcases List.mem_cons.mp hp with hpa | hpt
    · rw [← hpa]
      have h1 : (decide (p ∉ p :: v)) = false := by simp
      have h2 : (decide (p ∉ v)) = true := by simpa using hv
      rw [h1, h2]
      simp only [Bool.false_eq_true, if_false, if_true, List.length_cons]
      have hle : (t.filter (fun k => decide (k ∉ p :: v))).length ≤
          (t.filter (fun k => decide (k ∉ v))).length := by
        refine List.Sublist.length_le (List.monotone_filter_right _ ?_)
        intro x hx
        simp only [decide_eq_true_eq] at hx ⊢
        intro hxv
        exact hx (List.mem_cons_of_mem _ hxv)
      omega
    · have hlt := ih hpt hv
      by_cases hav : a ∈ v
      · have h1 : (decide (a ∉ p :: v)) = false := by
          simp [List.mem_cons_of_mem _ hav]
        have h2 : (decide (a ∉ v)) = false := by simp [hav]
        rw [h1, h2]
        simpa using hlt
      · by_cases hap : a = p
        · rw [hap]
          have h1 : (decide (p ∉ p :: v)) = false := by simp
          have h2 : (decide (p ∉ v)) = true := by simpa [← hap] using hav
          rw [h1, h2]
          simp only [Bool.false_eq_true, if_false, if_true, List.length_cons]
          have hle : (t.filter (fun k => decide (k ∉ p :: v))).length ≤
              (t.filter (fun k => decide (k ∉ v))).length := by
            refine List.Sublist.length_le (List.monotone_filter_right _ ?_)
            intro x hx
            simp only [decide_eq_true_eq] at hx ⊢
            intro hxv
            exact hx (List.mem_cons_of_mem _ hxv)
          omega
        · have h1 : (decide (a ∉ p :: v)) = true := by
            simp only [decide_eq_true_eq, List.mem_cons]
            push_neg
            exact ⟨hap, hav⟩
          have h2 : (decide (a ∉ v)) = true := by simp [hav]
          rw [h1, h2]
          simpa using Nat.succ_lt_succ hlt

/-- Visiting an unvisited key strictly decreases the unvisited count. -/
theorem unvisitedCount_insert_lt (m : PathMap) {v : List Nat} {p : Nat}
    (hp : p ∈ keysOf m) (hv : p ∉ v) :
    unvisitedCount m (p :: v) < unvisitedCount m v :=
  filter_cons_notMem_lt v p (keysOf m) hp hv

/-- The unvisited count never exceeds the size of the map. -/
theorem unvisitedCount_le (m : PathMap) (v : List Nat) :
    unvisitedCount m v ≤ m.length := by
  unfold unvisitedCount
  calc ((keysOf m).filter _).length ≤ (keysOf m).length := List.length_filter_le _ _
  _ = m.length := List.length_map _ _

/-- Appending an element whose eligible references all already occur
preserves the ordering property. -/
theorem closedFrom_append (m : PathMap) (p : Nat) :
    ∀ (xs seen : List Nat), ClosedFrom m seen xs →
    (∀ r ∈ refsOf m p, r ∈ keysOf m → r ≠ p → r ∈ seen ++ xs) →
    ClosedFrom m seen (xs ++ [p]) := by
  intro xs
  induction xs with
  | nil =>
    intro seen _ hp
    refine ⟨?_, trivial⟩
    intro r hr hk hne
    simpa using hp r hr hk hne
  | cons x xs ih =>
    intro seen hc hp
    obtain ⟨hx, hc⟩ := hc
    refine ⟨hx, ?_⟩
    refine ih (seen ++ [x]) hc ?_
    intro r hr hk hne
    have := hp r hr hk hne
    simpa [List.append_assoc] using this

/-- A rank function bounds reachability: anything reachable has rank at
most the source's. -/
theorem rank_le_of_reaches (m : PathMap) (rank : Nat → Nat)
    (hrk : Ranked m rank) {a b : Nat} (h : Reaches m a b) :
    rank b ≤ rank a := by
  induction h with
  | refl => exact le_refl _
  | tail hab hbc ih => exact le_trans (le_of_lt (hrk _ _ hbc)) ih

/-- The invariant carried through the depth-first traversal, relative
to the set `gray` of paths currently on the recursion stack. -/
structure DfsInv (m : PathMap) (gray : List Nat) (st : DfsState) : Prop where
  sorted_sub_visited : ∀ q ∈ st.sorted, q ∈ st.visited
  visited_sub : ∀ q ∈ st.visited, q ∈ st.sorted ∨ q ∈ gray
  sorted_nodup : st.sorted.Nodup
  visited_keys : ∀ q ∈ st.visited, q ∈ keysOf m
  closed : ClosedFrom m [] st.sorted
  gray_sub_visited : ∀ g ∈ gray, g ∈ st.visited
  gray_not_sorted : ∀ g ∈ gray, g ∉ st.sorted

/-- The correctness of one dfsVisit call on an acyclic map: given
enough fuel, a present root, stack paths that all reach the root, and
the invariant, the call preserves the invariant, only grows the visited
set, only appends previously-unvisited paths to the output, and leaves
the root visited. -/
theorem dfsVisit_spec (m : PathMap) (rank : Nat → Nat) (hrk : Ranked m rank) :
    ∀ (fuel : Nat) (p : Nat) (gray : List Nat) (st : DfsState),
    unvisitedCount m st.visited < fuel →
    p ∈ keysOf m →
    (∀ g ∈ gray, Reaches m g p) →
    DfsInv m gray st →
    DfsInv m gray (dfsVisit m fuel p st) ∧
    (∀ x ∈ st.visited, x ∈ (dfsVisit m fuel p st).visited) ∧
    (∃ ds, (dfsVisit m fuel p st).sorted = st.sorted ++ ds ∧
      ∀ x ∈ ds, x ∉ st.visited) ∧
    p ∈ (dfsVisit m fuel p st).visited := by
  intro fuel
  induction fuel with
  | zero =>
    intro p gray st hfuel
    exact absurd hfuel (Nat.not_lt_zero _)
  | succ fuel ih =>
    intro p gray st hfuel hpk hreach hinv
    by_cases hvis : p ∈ st.visited
    · have hstep : dfsVisit m (fuel + 1) p st = st := by
        simp only [dfsVisit, if_pos hvis]
      rw [hstep]
      exact ⟨hinv, fun x hx => hx, ⟨[], by simp, by simp⟩, hvis⟩
    · have hstep : dfsVisit m (fuel + 1) p st =
          dfsFinish p
            ((refsOf m p).foldl
              (fun acc r => if r ≠ p ∧ r ∈ keysOf m then dfsVisit m fuel r acc else acc)
              ⟨p :: st.visited, st.sorted⟩) := by
        simp only [dfsVisit, if_neg hvis]
      have hinv1 : DfsInv m (p :: gray) ⟨p :: st.visited, st.sorted⟩ := by
        refine ⟨?_, ?_, hinv.sorted_nodup, ?_, hinv.closed, ?_, ?_⟩
        · intro q hq
          exact List.mem_cons_of_mem _ (hinv.sorted_sub_visited q hq)
        · intro q hq
          rcases List.mem_cons.mp hq with hqp | hqv
          · exact Or.inr (hqp ▸ List.mem_cons_self _ _)
          · exact (hinv.visited_sub q hqv).imp id (List.mem_cons_of_mem _)
        · intro q hq
          rcases List.mem_cons.mp hq with hqp | hqv
          · exact hqp ▸ hpk
          · exact hinv.visited_keys q hqv
        · intro g hg
          rcases List.mem_cons.mp hg with hgp | hgm
          · exact hgp ▸ List.mem_cons_self _ _
          · exact List.mem_cons_of_mem _ (hinv.gray_sub_visited g hgm)
        · intro g hg
          rcases List.mem_cons.mp hg with hgp | hgm
          · intro hs
            exact hvis (hinv.sorted_sub_visited p (hgp ▸ hs))
          · exact hinv.gray_not_sorted g hgm
      have hfuel1 : unvisitedCount m (p :: st.visited) < fuel := by
        have h1 := unvisitedCount_insert_lt m hpk hvis
        omega
      have fold : ∀ (rs : List Nat), (∀ r ∈ rs, r ∈ refsOf m p) →
          ∀ (stc : DfsState), unvisitedCount m stc.visited < fuel →
          DfsInv m (p :: gray) stc →
          DfsInv m (p :: gray)
            (rs.foldl
              (fun acc r => if r ≠ p ∧ r ∈ keysOf m then dfsVisit m fuel r acc else acc) stc) ∧
          (∀ x ∈ stc.visited, x ∈
            (rs.foldl
              (fun acc r => if r ≠ p ∧ r ∈ keysOf m then dfsVisit m fuel r acc else acc) stc).visited) ∧
          (∃ ds,
            (rs.foldl
              (fun acc r => if r ≠ p ∧ r ∈ keysOf m then dfsVisit m fuel r acc else acc) stc).sorted =
              stc.sorted ++ ds ∧ ∀ x ∈ ds, x ∉ stc.visited) ∧
          unvisitedCount m
            (rs.foldl
              (fun acc r => if r ≠ p ∧ r ∈ keysOf m then dfsVisit m fuel r acc else acc) stc).visited < fuel ∧
          (∀ r ∈ rs, (r ≠ p ∧ r ∈ keysOf m) → r ∈
            (rs.foldl
              (fun acc r => if r ≠ p ∧ r ∈ keysOf m then dfsVisit m fuel r acc else acc) stc).visited) := by
        intro rs
        induction rs with
        | nil =>
          intro _ stc hf hi
          simp only [List.foldl_nil]
          exact ⟨hi, fun x hx => hx, ⟨[], by simp, by simp⟩, hf, by simp⟩
        | cons r rs ihr =>
          intro hsub stc hf hi
          simp only [List.foldl_cons]
          by_cases hg : r ≠ p ∧ r ∈ keysOf m
          · rw [if_pos hg]
            have hedge : Edge m p r := ⟨hpk, hg.2, hsub r (List.mem_cons_self _ _), hg.1⟩
            have hreach2 : ∀ g ∈ p :: gray, Reaches m g r := by
              intro g hgm
              rcases List.mem_cons.mp hgm with hgp | hgm2
              · exact hgp ▸ Relation.ReflTransGen.single hedge
              · exact Relation.ReflTransGen.tail (hreach g hgm2) hedge
            have hcall := ih r (p :: gray) stc hf hg.2 hreach2 hi
            obtain ⟨hi2, hmono2, ⟨ds2, hds2, hnew2⟩, hrin⟩ := hcall
            have hf2 : unvisitedCount m (dfsVisit m fuel r stc).visited < fuel :=
              lt_of_le_of_lt (unvisitedCount_mono m hmono2) hf
            have hrest := ihr (fun x hx => hsub x (List.mem_cons_of_mem _ hx))
              (dfsVisit m fuel r stc) hf2 hi2
            obtain ⟨hi3, hmono3, ⟨ds3, hds3, hnew3⟩, hf3, hin3⟩ := hrest
            refine ⟨hi3, ?_, ?_, hf3, ?_⟩
            · intro x hx
              exact hmono3 x (hmono2 x hx)
            · refine ⟨ds2 ++ ds3, ?_, ?_⟩
              · rw [hds3, hds2, List.append_assoc]
              · intro x hx
                rcases List.mem_append.mp hx with h2 | h3
                · exact hnew2 x h2
                · intro hxv
                  exact hnew3 x h3 (hmono2 x hxv)
            · intro x hx hgx
              rcases List.mem_cons.mp hx with hxr | hxm
              · exact hxr ▸ hmono3 r hrin
              · exact hin3 x hxm hgx
          · rw [if_neg hg]
            have hrest := ihr (fun x hx => hsub x (List.mem_cons_of_mem _ hx)) stc hf hi
            obtain ⟨hi3, hmono3, hds3, hf3, hin3⟩ := hrest
            refine ⟨hi3, hmono3, hds3, hf3, ?_⟩
            intro x hx hgx
            rcases List.mem_cons.mp hx with hxr | hxm
            · exact absurd (hxr ▸ hgx) hg
            · exact hin3 x hxm hgx
      have hmain := fold (refsOf m p) (fun r hr => hr) ⟨p :: st.visited, st.sorted⟩ hfuel1 hinv1
      obtain ⟨hi2, hmono2, ⟨ds2, hds2, hnew2⟩, hf2, hin2⟩ := hmain
      rw [hstep]
      set st2 := (refsOf m p).foldl
        (fun acc r => if r ≠ p ∧ r ∈ keysOf m then dfsVisit m fuel r acc else acc)
        (⟨p :: st.visited, st.sorted⟩ : DfsState) with hst2
      have hfinish_v : (dfsFinish p st2).visited = st2.visited := rfl
      have hfinish_s : (dfsFinish p st2).sorted = st2.sorted ++ [p] := rfl
      have hpnotst2 : p ∉ st2.sorted :=
        hi2.gray_not_sorted p (List.mem_cons_self _ _)
      refine ⟨?_, ?_, ?_, ?_⟩
      · refine ⟨?_, ?_, ?_, ?_, ?_, ?_, ?_⟩
        · intro q hq
          rw [hfinish_s] at hq
          rw [hfinish_v]
          rcases List.mem_append.mp hq with hq2 | hqp
          · exact hi2.sorted_sub_visited q hq2
          · have : q = p := by simpa using hqp
            exact this ▸ hmono2 p (List.mem_cons_self _ _)
        · intro q hq
          rw [hfinish_v] at hq
          rw [hfinish_s]
          rcases hi2.visited_sub q hq with hs | hgm
          · exact Or.inl (List.mem_append_left _ hs)
          · rcases List.mem_cons.mp hgm with hqp | hqg
            · exact Or.inl (List.mem_append_right _ (by simp [hqp]))
            · exact Or.inr hqg
        · rw [hfinish_s]
          refine List.Nodup.append hi2.sorted_nodup (List.nodup_singleton _) ?_
          intro a ha hb
          have : a = p := by simpa using hb
          exact hpnotst2 (this ▸ ha)
        · intro q hq
          rw [hfinish_v] at hq
          exact hi2.visited_keys q hq
        · rw [hfinish_s]
          refine closedFrom_append m p st2.sorted [] hi2.closed ?_
          intro r hr hk hne
          have hrv : r ∈ st2.visited := hin2 r hr ⟨hne, hk⟩
          rcases hi2.visited_sub r hrv with hs | hgm
          · simpa using hs
          · rcases List.mem_cons.mp hgm with hrp | hrg
            · exact absurd hrp hne
            · exfalso
              have hedge : Edge m p r := ⟨hpk, hk, hr, hne⟩
              have h1 : rank r < rank p := hrk p r hedge
              have h2 : rank p ≤ rank r :=
                rank_le_of_reaches m rank hrk (hreach r hrg)
              omega
        · intro g hg
          rw [hfinish_v]
          exact hi2.gray_sub_visited g (List.mem_cons_of_mem _ hg)
        · intro g hg
          rw [hfinish_s]
          intro hmem
          rcases List.mem_append.mp hmem with hs | hp1
          · exact hi2.gray_not_sorted g (List.mem_cons_of_mem _ hg) hs
          · have hgp : g = p := by simpa using hp1
            exact hvis (hgp ▸ hinv.gray_sub_visited g hg)
      · intro x hx
        rw [hfinish_v]
        exact hmono2 x (List.mem_cons_of_mem _ hx)
      · refine ⟨ds2 ++ [p], ?_, ?_⟩
        · rw [hfinish_s, hds2, List.append_assoc]
        · intro x hx
          rcases List.mem_append.mp hx with h2 | hp1
          · intro hxv
            exact hnew2 x h2 (List.mem_cons_of_mem _ hxv)
          · have : x = p := by simpa using hp1
            exact this ▸ hvis
      · rw [hfinish_v]
        exact hmono2 p (List.mem_cons_self _ _)

/-- The top-level loop preserves the invariant (with an empty stack)
and leaves every processed key visited. -/
theorem dfsRoots_spec (m : PathMap) (rank : Nat → Nat) (hrk : Ranked m rank) :
    ∀ (ps : List Nat) (st : DfsState),
    (∀ q ∈ ps, q ∈ keysOf m) →
    DfsInv m [] st →
    DfsInv m [] (dfsRoots m ps st) ∧
    (∀ x ∈ st.visited, x ∈ (dfsRoots m ps st).visited) ∧
    (∀ q ∈ ps, q ∈ (dfsRoots m ps st).visited) := by
  intro ps
  induction ps with
  | nil =>
    intro st _ hi
    exact ⟨hi, fun x hx => hx, by simp⟩
  | cons q ps ihp =>
    intro st hks hi
    have hfuel : unvisitedCount m st.visited < m.length + 1 :=
      Nat.lt_succ_of_le (unvisitedCount_le m st.visited)
    have hcall := dfsVisit_spec m rank hrk (m.length + 1) q [] st hfuel
      (hks q (List.mem_cons_self _ _)) (by simp) hi
    obtain ⟨hi2, hmono2, -, hqin⟩ := hcall
    have hrest := ihp (dfsVisit m (m.length + 1) q st)
      (fun x hx => hks x (List.mem_cons_of_mem _ hx)) hi2
    obtain ⟨hi3, hmono3, hin3⟩ := hrest
    refine ⟨hi3, ?_, ?_⟩
    · intro x hx
      exact hmono3 x (hmono2 x hx)
    · intro x hx
      rcases List.mem_cons.mp hx with hxq | hxm
      · exact hxq ▸ hmono3 q hqin
      · exact hin3 x hxm

/-- C1 (amended): provided the reference relation among distinct
present paths is acyclic — witnessed by a rank function decreasing
along traversal edges — the list produced by reverseTopoSortPaths
contains exactly the paths present in the metadata map, each exactly
once, and every reference of a listed path that is present in the map
(self-references excepted, since they are skipped rather than followed)
appears strictly before that path; paths absent from the map are never
visited and never listed. -/
theorem reverseTopoSortPaths_acyclic_ordering (m : PathMap) (rank : Nat → Nat)
    (hrk : Ranked m rank) :
    (∀ p, p ∈ reverseTopoSortPaths m ↔ p ∈ keysOf m) ∧
    (reverseTopoSortPaths m).Nodup ∧
    refsClosed m (reverseTopoSortPaths m) := by
  have hinit : DfsInv m [] ⟨[], []⟩ := by
    refine ⟨?_, ?_, List.nodup_nil, ?_, trivial, ?_, ?_⟩ <;> simp
  have h := dfsRoots_spec m rank hrk (keysOf m) ⟨[], []⟩ (fun q hq => hq) hinit
  obtain ⟨hi, -, hall⟩ := h
  refine ⟨?_, hi.sorted_nodup, hi.closed⟩
  intro p
  constructor
  · intro hp
    exact hi.visited_keys p (hi.sorted_sub_visited p hp)
  · intro hp
    rcases hi.visited_sub p (hall p hp) with hs | habs
    · exact hs
    · simp at habs

/-- Witness for C1: the two-path map in which 1 references itself and
2, and 2 references nothing, is ranked by n ↦ 2 − n; the sort is
evaluated on it concretely (output [2, 1]). -/
theorem reverseTopoSortPaths_acyclic_ordering_witness :
    Ranked [(1, ⟨[1, 2], 0⟩), (2, ⟨[], 0⟩)] (fun n => 2 - n) ∧
    reverseTopoSortPaths [(1, ⟨[1, 2], 0⟩), (2, ⟨[], 0⟩)] = [2, 1] ∧
    (1 ∈ reverseTopoSortPaths [(1, ⟨[1, 2], 0⟩), (2, ⟨[], 0⟩)] ↔
      1 ∈ keysOf [(1, ⟨[1, 2], 0⟩), (2, ⟨[], 0⟩)]) ∧
    (reverseTopoSortPaths [(1, ⟨[1, 2], 0⟩), (2, ⟨[], 0⟩)]).Nodup ∧
    refsClosed [(1, ⟨[1, 2], 0⟩), (2, ⟨[], 0⟩)]
      (reverseTopoSortPaths [(1, ⟨[1, 2], 0⟩), (2, ⟨[], 0⟩)]) := by
  have hrank : Ranked [(1, ⟨[1, 2], 0⟩), (2, ⟨[], 0⟩)] (fun n => 2 - n) := by
    intro a b hedge
    obtain ⟨ha, hb, hr, hne⟩ := hedge
    have ha2 : a = 1 ∨ a = 2 := by simpa [keysOf] using ha
    rcases ha2 with rfl | rfl
    · have hb2 : b = 1 ∨ b = 2 := by simpa [refsOf] using hr
      rcases hb2 with rfl | rfl
      · exact absurd rfl hne
      · decide
    · simp [refsOf] at hr
  have h := reverseTopoSortPaths_acyclic_ordering
    [(1, ⟨[1, 2], 0⟩), (2, ⟨[], 0⟩)] (fun n => 2 - n) hrank
  exact ⟨hrank, by decide, h.1 1, h.2.1, h.2.2⟩

/-! ## The orchestrator (State::buildRemote)

A straight-line model of buildRemote (build-remote.cc lines 351-509)
covering the log-file lifecycle and the output-copy phase.  Exceptions
thrown by collaborators are injected through boolean fields, placed at
the points where the source can throw: session open (line 374), the
cancellation check (line 378), sendInputs (line 416) — all before
`logFileDel.cancel()` at line 418 — then the log truncation (lines
422-426) and performBuild (line 437) after it, and queryPathInfos
(line 476) inside the copy phase.  The copy phase mirrors lines
461-491: it runs when the machine is not the local host or the local
store differs from the destination store; `cmdDumpStorePath` is only
sent for paths the destination store actually reads (paths not already
valid there), matching the lazy source in copyPathFromRemote. -/

/-- The step states reported through updateStep. -/
inductive StepState where
  | ssConnecting
  | ssSendingInputs
  | ssBuilding
  | ssReceivingOutputs
  deriving DecidableEq, Repr

/-- Inputs and injected collaborator failures of one buildRemote run. -/
structure BRInput where
  failConnect : Bool
  cancelled : Bool
  failSendInputs : Bool
  failTruncate : Bool
  failBuild : Bool
  buildResult : BuildResult
  isLocalhost : Bool
  localIsDest : Bool
  failQuery : Bool
  infos : PathMap
  maxOutputSize : Nat
  destValid : List Nat
  deriving DecidableEq, Repr

/-- Observable outcome of one buildRemote run: the RemoteResult, whether
the log file still exists on disk, the last state passed to updateStep,
whether an exception propagated, the paths for which cmdDumpStorePath
was sent, and the paths added to the destination store. -/
structure BROutput where
  result : RemoteResult
  logExists : Bool
  phase : StepState
  thrown : Bool
  dumps : List Nat
  added : List Nat
  deriving DecidableEq, Repr

/-- The total NAR size accumulated by queryPathInfos (build-remote.cc
line 290). -/
def totalNarSize (infos : PathMap) : Nat :=
  (infos.map (fun e => e.2.narSize)).sum

/-- The output-copy phase of buildRemote (lines 461-491). -/
def copyPhase (inp : BRInput) (res : RemoteResult) (logEx : Bool) : BROutput :=
  if !inp.isLocalhost || !inp.localIsDest then
    if inp.failQuery then ⟨res, logEx, .ssReceivingOutputs, true, [], []⟩
    else if totalNarSize inp.infos > inp.maxOutputSize then
      ⟨{ res with stepStatus := .bsNarSizeLimitExceeded }, logEx,
        .ssReceivingOutputs, false, [], []⟩
    else
      ⟨res, logEx, .ssReceivingOutputs, false,
        (reverseTopoSortPaths inp.infos).filter (fun p => decide (p ∉ inp.destValid)),
        (reverseTopoSortPaths inp.infos).filter (fun p => decide (p ∉ inp.destValid))⟩
  else ⟨res, logEx, .ssBuilding, false, [], []⟩

/-- State::buildRemote (lines 351-509): create the log file (delete-on-
exit armed), connect, check cancellation, send inputs, cancel the
delete-on-exit guard, truncate the log, build, map the result, and on
success clear the error message, drop the log for cached results, and
copy the outputs. -/
def buildRemoteModel (inp : BRInput) : BROutput :=
  let res0 := { RemoteResult.initial with logFile := "logfile" }
  if inp.failConnect then ⟨res0, false, .ssConnecting, true, [], []⟩
  else if inp.cancelled then ⟨res0, false, .ssConnecting, true, [], []⟩
  else if inp.failSendInputs then ⟨res0, false, .ssSendingInputs, true, [], []⟩
  else if inp.failTruncate then ⟨res0, true, .ssSendingInputs, true, [], []⟩
  else if inp.failBuild then ⟨res0, true, .ssBuilding, true, [], []⟩
  else
    let res1 := res0.updateWithBuildResult inp.buildResult
    if res1.stepStatus ≠ .bsSuccess then ⟨res1, true, .ssBuilding, false, [], []⟩
    else
      let res2 := { res1 with errorMsg := "" }
      if res2.isCached then copyPhase inp { res2 with logFile := "" } false
      else copyPhase inp res2 true

/-- The copy phase never touches the log file. -/
theorem copyPhase_logExists (inp : BRInput) (res : RemoteResult) (logEx : Bool) :
    (copyPhase inp res logEx).logExists = logEx := by
  unfold copyPhase
  split_ifs <;> rfl

/-- The copy phase never changes isCached. -/
theorem copyPhase_isCached (inp : BRInput) (res : RemoteResult) (logEx : Bool) :
    (copyPhase inp res logEx).result.isCached = res.isCached := by
  unfold copyPhase
  split_ifs <;> rfl

/-- The copy phase never changes the recorded log path. -/
theorem copyPhase_logFile (inp : BRInput) (res : RemoteResult) (logEx : Bool) :
    (copyPhase inp res logEx).result.logFile = res.logFile := by
  unfold copyPhase
  split_ifs <;> rfl

/-- C3: whenever the metadata phase is reached and the accumulated
totalNarSize of the declared outputs exceeds maxOutputSize, the
orchestrator sets stepStatus to NarSizeLimitExceeded and returns
without transferring any NAR body: no cmdDumpStorePath command is sent
and nothing is added to the destination store. -/
theorem buildRemote_narSizeLimit_shortCircuit (inp : BRInput)
    (h1 : inp.failConnect = false) (h2 : inp.cancelled = false)
    (h3 : inp.failSendInputs = false) (h4 : inp.failTruncate = false)
    (h5 : inp.failBuild = false)
    (h6 : inp.buildResult.status = .Built ∨ inp.buildResult.status = .Substituted ∨
      inp.buildResult.status = .AlreadyValid)
    (h7 : inp.isLocalhost = false ∨ inp.localIsDest = false)
    (h8 : inp.failQuery = false)
    (h9 : totalNarSize inp.infos > inp.maxOutputSize) :
    (buildRemoteModel inp).result.stepStatus = .bsNarSizeLimitExceeded ∧
    (buildRemoteModel inp).dumps = [] ∧
    (buildRemoteModel inp).added = [] := by
  rcases h6 with h6 | h6 | h6 <;> rcases h7 with h7 | h7 <;>
    simp [buildRemoteModel, copyPhase, RemoteResult.updateWithBuildResult,
      RemoteResult.initial, h1, h2, h3, h4, h5, h6, h7, h8, h9]

/-- Witness for C3: a run with one 100-byte output against a 10-byte
ceiling ends in NarSizeLimitExceeded with no dump commands. -/
theorem buildRemote_narSizeLimit_shortCircuit_witness :
    (buildRemoteModel
      { failConnect := false, cancelled := false, failSendInputs := false,
        failTruncate := false, failBuild := false,
        buildResult := ⟨.Built, "", 1, false, 0, 0, []⟩,
        isLocalhost := false, localIsDest := false, failQuery := false,
        infos := [(1, ⟨[], 100⟩)], maxOutputSize := 10,
        destValid := [] }).result.stepStatus = .bsNarSizeLimitExceeded ∧
    (buildRemoteModel
      { failConnect := false, cancelled := false, failSendInputs := false,
        failTruncate := false, failBuild := false,
        buildResult := ⟨.Built, "", 1, false, 0, 0, []⟩,
        isLocalhost := false, localIsDest := false, failQuery := false,
        infos := [(1, ⟨[], 100⟩)], maxOutputSize := 10,
        destValid := [] }).dumps = [] ∧
    (buildRemoteModel
      { failConnect := false, cancelled := false, failSendInputs := false,
        failTruncate := false, failBuild := false,
        buildResult := ⟨.Built, "", 1, false, 0, 0, []⟩,
        isLocalhost := false, localIsDest := false, failQuery := false,
        infos := [(1, ⟨[], 100⟩)], maxOutputSize := 10,
        destValid := [] }).added = [] :=
  buildRemote_narSizeLimit_shortCircuit _ rfl rfl rfl rfl rfl (Or.inl rfl)
    (Or.inl rfl) rfl (by decide)

/-- Counterexample to C8: when sendInputs throws, the step has already
progressed past Connecting (updateStep(ssSendingInputs) precedes
sendInputs) but the delete-on-exit guard is still armed, so the log
file is deleted from disk even though the result is not cached and the
connection did progress past the Connecting state. -/
theorem logFile_lifecycle_counterexample :
    (buildRemoteModel
      { failConnect := false, cancelled := false, failSendInputs := true,
        failTruncate := false, failBuild := false,
        buildResult := ⟨.Built, "", 0, false, 0, 0, []⟩,
        isLocalhost := false, localIsDest := false, failQuery := false,
        infos := [], maxOutputSize := 0, destValid := [] }).phase =
      .ssSendingInputs ∧
    ¬ ((buildRemoteModel
      { failConnect := false, cancelled := false, failSendInputs := true,
        failTruncate := false, failBuild := false,
        buildResult := ⟨.Built, "", 0, false, 0, 0, []⟩,
        isLocalhost := false, localIsDest := false, failQuery := false,
        infos := [], maxOutputSize := 0, destValid := [] }).logExists = false ↔
      ((buildRemoteModel
        { failConnect := false, cancelled := false, failSendInputs := true,
          failTruncate := false, failBuild := false,
          buildResult := ⟨.Built, "", 0, false, 0, 0, []⟩,
          isLocalhost := false, localIsDest := false, failQuery := false,
          infos := [], maxOutputSize := 0, destValid := [] }).result.isCached = true ∨
       (buildRemoteModel
        { failConnect := false, cancelled := false, failSendInputs := true,
          failTruncate := false, failBuild := false,
          buildResult := ⟨.Built, "", 0, false, 0, 0, []⟩,
          isLocalhost := false, localIsDest := false, failQuery := false,
          infos := [], maxOutputSize := 0, destValid := [] }).phase =
        .ssConnecting)) := by
  constructor
  · rfl
  · decide

/-- C8 (amended): the log file is created before connecting and deleted
from disk exactly when the result is cached or an exception occurs
before the input transfer completes (while connecting, on the
cancellation check, or inside sendInputs — that is, before the
delete-on-exit guard is cancelled); otherwise it is retained on disk
with its path recorded in RemoteResult.logFile.  In particular, for
every run whose RemoteResult has isCached = true, logFile is the empty
string and no log file exists on disk. -/
theorem logFile_lifecycle (inp : BRInput) :
    ((buildRemoteModel inp).logExists = false ↔
      (inp.failConnect = true ∨ inp.cancelled = true ∨ inp.failSendInputs = true ∨
        (buildRemoteModel inp).result.isCached = true)) ∧
    ((buildRemoteModel inp).result.isCached = true →
      (buildRemoteModel inp).result.logFile = "" ∧
      (buildRemoteModel inp).logExists = false) ∧
    ((buildRemoteModel inp).logExists = true →
      (buildRemoteModel inp).result.logFile = "logfile") := by
  obtain ⟨fc, ca, fs, ft, fb, br, il, ld, fq, infos, mos, dv⟩ := inp
  obtain ⟨bs, bmsg, btb, bnd, bst, bsp, bbo⟩ := br
  cases fc with
  | true => simp [buildRemoteModel, RemoteResult.initial]
  | false =>
  cases ca with
  | true => simp [buildRemoteModel, RemoteResult.initial]
  | false =>
  cases fs with
  | true => simp [buildRemoteModel, RemoteResult.initial]
  | false =>
  cases ft with
  | true => simp [buildRemoteModel, RemoteResult.initial]
  | false =>
  cases fb with
  | true => simp [buildRemoteModel, RemoteResult.initial]
  | false =>
  cases bs <;>
    simp [buildRemoteModel, RemoteResult.updateWithBuildResult, RemoteResult.initial,
      copyPhase_logExists, copyPhase_isCached, copyPhase_logFile]
